import Mathlib

/-!
Verification development for the schema analyzer of `kopium` (`src/analyzer.rs`).

The analyzer walks a Kubernetes CRD structural schema (`JSONSchemaProps`) and
produces a flat list of output struct declarations (`OutputStruct`) with typed
members.  This file gives a shallow embedding of the analyzer: the schema data
model, the scalar format mappers, the array unwrapper, the member resolver
(`analyze_object_properties`) and the structure walker (`analyze`), each
translated from the corresponding Rust item.  Rust's `BTreeMap` property maps
are embedded as association lists iterated in sorted key order (`sortPairs`,
using the byte/codepoint-lexicographic order that `Ord for String` gives a
`BTreeMap`), the `HashMap<String, u8>` array-recurse table as an association
list with replace-on-insert (`insertAR`), and `anyhow` errors as an explicit
error type with one constructor per `bail!` site.  `analyze` mutates a
caller-supplied result vector in Rust; here it returns the final vector
together with an optional error, so that the contents of the vector at the
moment of failure stay observable.

Two deliberate simplifications: the Rust `level: u8` is embedded as `Nat`
(overflow at depth 256 would panic in a debug build and is irrelevant to the
properties below, all exercised at small depths), and Rust's
`char::to_uppercase` (which can expand one code point to several) is embedded
as `Char.toUpper`; the two agree on ASCII property keys.
-/

set_option maxHeartbeats 2000000

namespace KopiumAnalyzer

/-- Embedding of `k8s_openapi ... JSONSchemaPropsOrBool`, parametrized by the
schema type to break the recursive knot. -/
inductive SchemaOrBool (α : Type) where
  | Schema (s : α)
  | Bool (b : Bool)
deriving Repr

/-- Embedding of `k8s_openapi ... JSONSchemaPropsOrArray`: a single schema or
several (tuple validation). -/
inductive SchemaOrArray (α : Type) where
  | Schema (s : α)
  | Schemas (l : List α)
deriving Repr

/-- Embedding of the fields of `JSONSchemaProps` that `analyzer.rs` reads.
`properties` is a `BTreeMap<String, JSONSchemaProps>` in Rust; it is embedded
as an association list (iteration goes through `sortPairs`, matching the
`BTreeMap` sorted iteration order). -/
inductive JSONSchemaProps where
  | mk
    (type_ : Option String)
    (format : Option String)
    (description : Option String)
    (properties : Option (List (String × JSONSchemaProps)))
    (required : Option (List String))
    (items : Option (SchemaOrArray JSONSchemaProps))
    (additional_properties : Option (SchemaOrBool JSONSchemaProps))
    (x_kubernetes_int_or_string : Option Bool)
    (x_kubernetes_preserve_unknown_fields : Option Bool)

def JSONSchemaProps.type_ : JSONSchemaProps → Option String
  | .mk t _ _ _ _ _ _ _ _ => t

def JSONSchemaProps.format : JSONSchemaProps → Option String
  | .mk _ f _ _ _ _ _ _ _ => f

def JSONSchemaProps.description : JSONSchemaProps → Option String
  | .mk _ _ d _ _ _ _ _ _ => d

def JSONSchemaProps.properties : JSONSchemaProps → Option (List (String × JSONSchemaProps))
  | .mk _ _ _ p _ _ _ _ _ => p

def JSONSchemaProps.required : JSONSchemaProps → Option (List String)
  | .mk _ _ _ _ r _ _ _ _ => r

def JSONSchemaProps.items : JSONSchemaProps → Option (SchemaOrArray JSONSchemaProps)
  | .mk _ _ _ _ _ i _ _ _ => i

def JSONSchemaProps.additional_properties : JSONSchemaProps → Option (SchemaOrBool JSONSchemaProps)
  | .mk _ _ _ _ _ _ a _ _ => a

def JSONSchemaProps.x_kubernetes_int_or_string : JSONSchemaProps → Option Bool
  | .mk _ _ _ _ _ _ _ x _ => x

def JSONSchemaProps.x_kubernetes_preserve_unknown_fields : JSONSchemaProps → Option Bool
  | .mk _ _ _ _ _ _ _ _ x => x

/-- Embedding of `OutputMember` (fields as constructed in `analyzer.rs`). -/
structure OutputMember where
  type_ : String
  name : String
  field_annot : Option String
  docs : Option String
deriving DecidableEq, Repr

/-- Embedding of `OutputStruct` (fields as constructed in `analyzer.rs`). -/
structure OutputStruct where
  name : String
  members : List OutputMember
  level : Nat
  docs : Option String
deriving DecidableEq, Repr

/-- One constructor per `bail!` site of `analyzer.rs`, carrying the same data
that the Rust format string interpolates. -/
inductive AnalyzeError where
  /-- "unknown empty dict type for {key}" (two sites, same message) -/
  | unknownEmptyDictType (key : String)
  /-- "unknown type {x}" -/
  | unknownType (t : String)
  /-- "unsupported recursive array type {x} for {key}" -/
  | unsupportedRecursiveArrayType (t : String) (key : String)
  /-- "only support single schema in array {key}" -/
  | onlySupportSingleSchemaInArray (key : String)
  /-- "missing items in array type" -/
  | missingItemsInArrayType
  /-- "only handling single type in arrays" -/
  | onlyHandlingSingleTypeInArrays
  /-- "could not recurse into vec" -/
  | couldNotRecurseIntoVec
  /-- "unknown date {x}" -/
  | unknownDate (f : String)
  /-- "unknown number {x}" -/
  | unknownNumber (f : String)
  /-- "unknown integer {x}" -/
  | unknownInteger (f : String)
deriving DecidableEq, Repr

/-- `const IGNORED_KEYS: [&str; 3]` — envelope keys not recursed into at the root. -/
def IGNORED_KEYS : List String := ["metadata", "apiVersion", "kind"]

/-- `uppercase_first_letter` from `analyzer.rs`. -/
def uppercase_first_letter (s : String) : String :=
  match s.data with
  | [] => ""
  | f :: rest => String.mk (f.toUpper :: rest)

/-- `extract_date_type` from `analyzer.rs`. -/
def extract_date_type (value : JSONSchemaProps) : Except AnalyzeError String :=
  match value.format with
  | some f =>
    match f with
    | "date" => .ok "NaiveDate"
    | "date-time" => .ok "DateTime<Utc>"
    | x => .error (.unknownDate x)
  | none => .ok "String"

/-- `extract_number_type` from `analyzer.rs`. -/
def extract_number_type (value : JSONSchemaProps) : Except AnalyzeError String :=
  match value.format with
  | some f =>
    match f with
    | "float" => .ok "f32"
    | "double" => .ok "f64"
    | x => .error (.unknownNumber x)
  | none => .ok "f64"

/-- `extract_integer_type` from `analyzer.rs`. -/
def extract_integer_type (value : JSONSchemaProps) : Except AnalyzeError String :=
  match value.format with
  | some f =>
    match f with
    | "int8" => .ok "i8"
    | "int16" => .ok "i16"
    | "int32" => .ok "i32"
    | "int64" => .ok "i64"
    | "int128" => .ok "i128"
    | "uint8" => .ok "u8"
    | "uint16" => .ok "u16"
    | "uint32" => .ok "u32"
    | "uint64" => .ok "u64"
    | "uint128" => .ok "u128"
    | x => .error (.unknownInteger x)
  | none => .ok "i64"

/-- Byte/codepoint lexicographic strict order on character lists: the order in
which Rust's `Ord for String` (and hence `BTreeMap<String, _>` iteration)
compares keys.  (UTF-8 byte order coincides with scalar-value order.) -/
def charsLt : List Char → List Char → Bool
  | [], [] => false
  | [], _ :: _ => true
  | _ :: _, [] => false
  | a :: as, b :: bs =>
    if a.toNat < b.toNat then true
    else if b.toNat < a.toNat then false
    else charsLt as bs

/-- Strict key order on strings, as used by `BTreeMap<String, _>`. -/
def keyLt (a b : String) : Bool := charsLt a.data b.data

/-- Reflexive key order on strings (`a ≤ b` iff `¬ b < a`). -/
def keyLe (a b : String) : Prop := keyLt b a = false

instance (a b : String) : Decidable (keyLe a b) := by
  unfold keyLe; infer_instance

/-- Insert a key/schema pair into a key-sorted association list. -/
def insertPair (p : String × JSONSchemaProps) :
    List (String × JSONSchemaProps) → List (String × JSONSchemaProps)
  | [] => [p]
  | q :: rest => if keyLt q.1 p.1 then q :: insertPair p rest else p :: q :: rest

/-- Sort an association list by key: the iteration order of the embedded
`BTreeMap<String, JSONSchemaProps>`. -/
def sortPairs : List (String × JSONSchemaProps) → List (String × JSONSchemaProps)
  | [] => []
  | p :: rest => insertPair p (sortPairs rest)

/-- `HashMap::insert` on the embedded array-recurse table (replace on
existing key). -/
def insertAR : List (String × Nat) → String → Nat → List (String × Nat)
  | [], k, d => [(k, d)]
  | (k', d') :: rest, k, d =>
    if k' = k then (k, d) :: rest else (k', d') :: insertAR rest k d

/-- `sizeOf` decreases when stepping from a schema into its `items` schema. -/
theorem sizeOf_items_lt {v s : JSONSchemaProps}
    (h : v.items = some (.Schema s)) : sizeOf s < sizeOf v := by
  cases v with
  | mk t f d p r i a x1 x2 =>
    simp [JSONSchemaProps.items] at h
    subst h
    simp
    omega

/-- `sizeOf` decreases when stepping from a schema into its
`additional_properties` schema. -/
theorem sizeOf_additional_lt {v s : JSONSchemaProps}
    (h : v.additional_properties = some (.Schema s)) : sizeOf s < sizeOf v := by
  cases v with
  | mk t f d p r i a x1 x2 =>
    simp [JSONSchemaProps.additional_properties] at h
    subst h
    simp
    omega

/-- `array_recurse_for_type` from `analyzer.rs`: unwrap nested array layers to
the first non-array element type.  Note that the scalar format extraction in
the `date`/`number`/`integer` arms reads the format of `value` (the current
array layer), exactly as the source does. -/
def array_recurse_for_type (value : JSONSchemaProps) (stack : String) (key : String)
    (level : Nat) : Except AnalyzeError (String × Nat) :=
  match h : value.items with
  | some its =>
    match its with
    | .Schema s =>
      match s.type_.getD "" with
      | "object" =>
        .ok ("Vec<" ++ stack ++ uppercase_first_letter key ++ ">", level)
      | "string" => .ok ("Vec<String>", level)
      | "boolean" => .ok ("Vec<bool>", level)
      | "date" => (extract_date_type value).map fun t => ("Vec<" ++ t ++ ">", level)
      | "number" => (extract_number_type value).map fun t => ("Vec<" ++ t ++ ">", level)
      | "integer" => (extract_integer_type value).map fun t => ("Vec<" ++ t ++ ">", level)
      | "array" => array_recurse_for_type s stack key (level + 1)
      | x => .error (.unsupportedRecursiveArrayType x key)
    | .Schemas _ => .error (.onlySupportSingleSchemaInArray key)
  | none => .error .missingItemsInArrayType
termination_by sizeOf value
decreasing_by
  exact sizeOf_items_lt h

/-- The `for _i in 0..recurse` item-hop loop inside `analyze`'s `array` arm:
descend `d` `items` layers, failing exactly where the source `bail!`s. -/
def replayHops (inner : JSONSchemaProps) : Nat → Except AnalyzeError JSONSchemaProps
  | 0 => .ok inner
  | d + 1 =>
    match inner.items with
    | some (.Schema s) => replayHops s d
    | some (.Schemas _) => .error .onlyHandlingSingleTypeInArrays
    | none => .error .couldNotRecurseIntoVec

/-- The serde field annotation attached by the source to optional members. -/
def optionalAnnot : String := "#[serde(default, skip_serializing_if = \"Option::is_none\")]"

/-- The per-property type inference of `analyze_object_properties` (the match
on `value_type` computing `rust_type`), including the `array` arm's insertion
into the array-recurse table. -/
def resolveOne (key : String) (value : JSONSchemaProps) (stack : String)
    (arl : List (String × Nat)) :
    Except AnalyzeError (String × List (String × Nat)) :=
  match value.type_.getD "" with
  | "object" =>
    let dict_key : Except AnalyzeError (Option String) :=
      match value.additional_properties with
      | some additional =>
        match additional with
        | .Schema s =>
          match s.type_.getD "" with
          | "string" => .ok (some "String")
          | "array" => .ok (some (stack ++ uppercase_first_letter key))
          | "object" => .ok (some (stack ++ uppercase_first_letter key))
          | "" =>
            if s.x_kubernetes_int_or_string.isSome then .ok (some "IntOrString")
            else .error (.unknownEmptyDictType key)
          | x => .ok (some (uppercase_first_letter x))
        | .Bool _ => .ok none
      | none =>
        if value.properties.isNone ∧ value.x_kubernetes_preserve_unknown_fields.getD false then
          .ok (some "serde_json::Value")
        else .ok none
    match dict_key with
    | .ok (some dict) => .ok ("BTreeMap<String, " ++ dict ++ ">", arl)
    | .ok none => .ok (stack ++ uppercase_first_letter key, arl)
    | .error e => .error e
  | "string" => .ok ("String", arl)
  | "boolean" => .ok ("bool", arl)
  | "date" => (extract_date_type value).map fun t => (t, arl)
  | "number" => (extract_number_type value).map fun t => (t, arl)
  | "integer" => (extract_integer_type value).map fun t => (t, arl)
  | "array" =>
    match array_recurse_for_type value stack key 1 with
    | .ok (array_type, recurse_level) => .ok (array_type, insertAR arl key recurse_level)
    | .error e => .error e
  | "" =>
    if value.x_kubernetes_int_or_string.isSome then .ok ("IntOrString", arl)
    else .error (.unknownEmptyDictType key)
  | x => .error (.unknownType x)

/-- The member-building loop of `analyze_object_properties`: resolve each
property's type, wrap it in `Option<...>` when the key is not in `reqs`, and
thread the array-recurse table. -/
def resolveMembers (pairs : List (String × JSONSchemaProps)) (stack : String)
    (reqs : List String) (arl : List (String × Nat)) :
    Except AnalyzeError (List OutputMember × List (String × Nat)) :=
  match pairs with
  | [] => .ok ([], arl)
  | (key, value) :: rest =>
    match resolveOne key value stack arl with
    | .error e => .error e
    | .ok (rust_type, arl') =>
      match resolveMembers rest stack reqs arl' with
      | .error e => .error e
      | .ok (ms, arl'') =>
        .ok ((if reqs.contains key then
          { type_ := rust_type, name := key, field_annot := none,
            docs := value.description }
        else
          { type_ := "Option<" ++ rust_type ++ ">", name := key,
            field_annot := some optionalAnnot,
            docs := value.description } : OutputMember) :: ms, arl'')

/-- `analyze_object_properties` from `analyzer.rs`: build exactly one
`OutputStruct` (named by the current stack) from an object's property map,
additionally returning the array-recurse table it populated. -/
def analyze_object_properties (props : List (String × JSONSchemaProps)) (stack : String)
    (arl : List (String × Nat)) (level : Nat) (schema : JSONSchemaProps) :
    Except AnalyzeError (List OutputStruct × List (String × Nat)) :=
  match resolveMembers (sortPairs props) stack (schema.required.getD []) arl with
  | .error e => .error e
  | .ok (members, arl') =>
    .ok ([{ name := stack, members := members, level := level,
            docs := schema.description }], arl')

/-- Inserting a pair keeps the total `sizeOf` of the list. -/
theorem sizeOf_insertPair (p : String × JSONSchemaProps)
    (l : List (String × JSONSchemaProps)) :
    sizeOf (insertPair p l) = sizeOf (p :: l) := by
  induction l with
  | nil => simp [insertPair]
  | cons q rest ih =>
    simp only [insertPair]
    split
    · simp only [List.cons.sizeOf_spec] at *
      omega
    · rfl

/-- Sorting keeps the total `sizeOf` of the list. -/
theorem sizeOf_sortPairs (l : List (String × JSONSchemaProps)) :
    sizeOf (sortPairs l) = sizeOf l := by
  induction l with
  | nil => rfl
  | cons p rest ih =>
    simp only [sortPairs, sizeOf_insertPair, List.cons.sizeOf_spec]
    omega

/-- The sorted property list of a schema is `sizeOf`-smaller than the schema. -/
theorem sizeOf_sortProps_lt (schema : JSONSchemaProps) :
    sizeOf (sortPairs (schema.properties.getD [])) < sizeOf schema := by
  cases schema with
  | mk t f d p r i a x1 x2 =>
    cases p with
    | none => simp [JSONSchemaProps.properties, sortPairs]; omega
    | some l =>
      simp [JSONSchemaProps.properties, sizeOf_sortPairs]
      omega

/-- Replaying item hops can only shrink the schema. -/
theorem sizeOf_replayHops_le :
    ∀ (d : Nat) (inner out : JSONSchemaProps), replayHops inner d = .ok out →
      sizeOf out ≤ sizeOf inner := by
  intro d
  induction d with
  | zero =>
    intro inner out h
    simp [replayHops] at h
    subst h
    exact Nat.le_refl _
  | succ d ih =>
    intro inner out h
    unfold replayHops at h
    match hit : inner.items with
    | some (.Schema s) =>
      rw [hit] at h
      exact Nat.le_trans (ih s out h) (Nat.le_of_lt (sizeOf_items_lt hit))
    | some (.Schemas l) => rw [hit] at h; cases h
    | none => rw [hit] at h; cases h

mutual

/-- `analyze` from `analyzer.rs` (the Structure Walker): emit the current
object's struct via the Member Resolver, then recurse into its properties.
Returns the final contents of the caller-supplied result vector together with
the error, if any, that aborted the call. -/
def analyze (schema : JSONSchemaProps) (current : String) (stack : String)
    (level : Nat) (results : List OutputStruct) :
    List OutputStruct × Option AnalyzeError :=
  let props := schema.properties.getD []
  if schema.type_.getD "" = "object" then
    match schema.additional_properties with
    | some (.Schema s) =>
      match s.properties with
      | some extra_props =>
        match analyze_object_properties extra_props stack [] level schema with
        | .ok (new_result, arl) =>
          analyzeRecurse (sortPairs props) arl stack level (results ++ new_result)
        | .error e => (results, some e)
      | none =>
        if s.type_.getD "" ≠ "" then (results, none)
        else analyzeRecurse (sortPairs props) [] stack level results
    | _ =>
      if props.isEmpty ∧ schema.x_kubernetes_preserve_unknown_fields.getD false then
        (results, none)
      else
        match analyze_object_properties props stack [] level schema with
        | .ok (new_result, arl) =>
          analyzeRecurse (sortPairs props) arl stack level (results ++ new_result)
        | .error e => (results, some e)
  else
    analyzeRecurse (sortPairs props) [] stack level results
termination_by (sizeOf schema, 0)
decreasing_by
  all_goals exact Prod.Lex.left _ _ (sizeOf_sortProps_lt schema)

/-- One iteration of `analyze`'s property-recursion loop (the body of
`for (key, value) in props` after the ignored-key check). -/
def walk_property (key : String) (value : JSONSchemaProps)
    (arl : List (String × Nat)) (stack : String) (level : Nat)
    (results : List OutputStruct) : List OutputStruct × Option AnalyzeError :=
  let next_key := uppercase_first_letter key
  let next_stack := stack ++ next_key
  match value.type_.getD "" with
  | "object" =>
    match h : value.additional_properties with
    | some (.Schema s) =>
      if s.type_.getD "" = "array" then
        match h2 : s.items with
        | some (.Schema its) => analyze its next_key next_stack (level + 1) results
        | _ => analyze value next_key next_stack (level + 1) results
      else analyze value next_key next_stack (level + 1) results
    | _ => analyze value next_key next_stack (level + 1) results
  | "array" =>
    match List.lookup key arl with
    | some recurse =>
      match h : replayHops value recurse with
      | .ok inner => analyze inner next_key next_stack (level + 1) results
      | .error e => (results, some e)
    | none => (results, none)
  | _ => (results, none)
termination_by (sizeOf value, 1)
decreasing_by
  all_goals first
  | exact Prod.Lex.left _ _ (Nat.lt_trans (sizeOf_items_lt h2) (sizeOf_additional_lt h))
  | exact Prod.Lex.right _ Nat.zero_lt_one
  | (rcases Nat.lt_or_ge (sizeOf inner) (sizeOf value) with hc | hc
     · exact Prod.Lex.left _ _ hc
     · have hle := sizeOf_replayHops_le recurse value inner h
       have heq : sizeOf inner = sizeOf value := Nat.le_antisymm hle hc
       rw [heq]; exact Prod.Lex.right _ Nat.zero_lt_one)

/-- `analyze`'s property-recursion loop over the sorted property pairs,
skipping `IGNORED_KEYS` at level 0 and aborting on the first error. -/
def analyzeRecurse (pairs : List (String × JSONSchemaProps))
    (arl : List (String × Nat)) (stack : String) (level : Nat)
    (results : List OutputStruct) : List OutputStruct × Option AnalyzeError :=
  match pairs with
  | [] => (results, none)
  | (key, value) :: rest =>
    if level = 0 ∧ IGNORED_KEYS.contains key then
      analyzeRecurse rest arl stack level results
    else
      match walk_property key value arl stack level results with
      | (results', none) => analyzeRecurse rest arl stack level results'
      | (results', some e) => (results', some e)
termination_by (sizeOf pairs, 1)

end

/-! ### Properties of the key order and of sorted iteration -/

theorem charsLt_nil_right (c : List Char) : charsLt c [] = false := by
  cases c <;> rfl

theorem charsLt_asymm : ∀ (a b : List Char), charsLt a b = true → charsLt b a = false := by
  intro a
  induction a with
  | nil =>
    intro b h
    cases b with
    | nil => simp [charsLt] at h
    | cons y ys => exact charsLt_nil_right _
  | cons x xs ih =>
    intro b h
    cases b with
    | nil => simp [charsLt] at h
    | cons y ys =>
      by_cases hxy : x.toNat < y.toNat
      · by_cases hyx : y.toNat < x.toNat
        · omega
        · simp [charsLt, hxy, hyx]
      · by_cases hyx : y.toNat < x.toNat
        · simp [charsLt, hxy, hyx] at h
        · simp only [charsLt, hxy, hyx, if_false] at h
          simp only [charsLt, hxy, hyx, if_false]
          exact ih ys h

theorem charsLt_le_trans :
    ∀ (a b c : List Char), charsLt b a = false → charsLt c b = false →
      charsLt c a = false := by
  intro a
  induction a with
  | nil => intro b c _ _; exact charsLt_nil_right _
  | cons x xs ih =>
    intro b c h1 h2
    cases b with
    | nil => simp [charsLt] at h1
    | cons y ys =>
      cases c with
      | nil => simp [charsLt] at h2
      | cons z zs =>
        by_cases hyx : y.toNat < x.toNat
        · simp [charsLt, hyx] at h1
        · by_cases hzy : z.toNat < y.toNat
          · simp [charsLt, hzy] at h2
          · by_cases hzx : z.toNat < x.toNat
            · omega
            · by_cases hxz : x.toNat < z.toNat
              · simp [charsLt, hzx, hxz]
              · have hxy : ¬ x.toNat < y.toNat := by omega
                have hyz : ¬ y.toNat < z.toNat := by omega
                simp only [charsLt, hyx, hxy, if_false] at h1
                simp only [charsLt, hzy, hyz, if_false] at h2
                simp only [charsLt, hzx, hxz, if_false]
                exact ih ys zs h1 h2

theorem mem_insertPair (q p : String × JSONSchemaProps)
    (l : List (String × JSONSchemaProps)) :
    q ∈ insertPair p l ↔ q = p ∨ q ∈ l := by
  induction l with
  | nil => simp [insertPair]
  | cons r rest ih =>
    simp only [insertPair]
    split
    · simp only [List.mem_cons, ih]
      tauto
    · simp only [List.mem_cons]

theorem mem_sortPairs (q : String × JSONSchemaProps)
    (l : List (String × JSONSchemaProps)) :
    q ∈ sortPairs l ↔ q ∈ l := by
  induction l with
  | nil => simp [sortPairs]
  | cons p rest ih =>
    simp only [sortPairs, mem_insertPair, ih, List.mem_cons]

/-- The relation in which sorted property lists are pairwise ordered:
the earlier key is not strictly greater than the later one. -/
def keyOrdered (p q : String × JSONSchemaProps) : Prop := keyLe p.1 q.1

theorem pairwise_insertPair (p : String × JSONSchemaProps)
    (l : List (String × JSONSchemaProps)) (h : List.Pairwise keyOrdered l) :
    List.Pairwise keyOrdered (insertPair p l) := by
  induction l with
  | nil => simp [insertPair]
  | cons q rest ih =>
    rcases List.pairwise_cons.mp h with ⟨hq, hrest⟩
    simp only [insertPair]
    split
    · rename_i hlt
      refine List.pairwise_cons.mpr ⟨?_, ih hrest⟩
      intro r hr
      rcases (mem_insertPair r p rest).mp hr with rfl | hr'
      · show keyLt r.1 q.1 = false
        exact charsLt_asymm _ _ hlt
      · exact hq r hr'
    · rename_i hnlt
      have hnlt' : keyLt q.1 p.1 = false := by
        simpa using hnlt
      refine List.pairwise_cons.mpr ⟨?_, h⟩
      intro r hr
      rcases List.mem_cons.mp hr with rfl | hr'
      · exact hnlt'
      · show keyLt r.1 p.1 = false
        exact charsLt_le_trans _ _ _ hnlt' (hq r hr')

theorem pairwise_sortPairs (l : List (String × JSONSchemaProps)) :
    List.Pairwise keyOrdered (sortPairs l) := by
  induction l with
  | nil => simp [sortPairs]
  | cons p rest ih => exact pairwise_insertPair p _ ih

/-! ### Properties of the array unwrapper and of per-property type resolution -/

theorem arfc_items_none {v : JSONSchemaProps} {st k : String} {lvl : Nat}
    (h : v.items = none) :
    array_recurse_for_type v st k lvl = .error .missingItemsInArrayType := by
  rw [array_recurse_for_type]
  split
  · rename_i its heq
    rw [h] at heq
    cases heq
  · rfl

theorem arfc_items_schemas {v : JSONSchemaProps} {st k : String} {lvl : Nat}
    {ss : List JSONSchemaProps} (h : v.items = some (.Schemas ss)) :
    array_recurse_for_type v st k lvl = .error (.onlySupportSingleSchemaInArray k) := by
  rw [array_recurse_for_type]
  split
  · rename_i its heq
    rw [h] at heq
    injection heq with heq'
    subst heq'
    rfl
  · rename_i heq
    rw [h] at heq
    cases heq

theorem arfc_item_schema {v s : JSONSchemaProps} {st k : String} {lvl : Nat}
    (h : v.items = some (.Schema s)) :
    array_recurse_for_type v st k lvl =
      match s.type_.getD "" with
      | "object" => .ok ("Vec<" ++ st ++ uppercase_first_letter k ++ ">", lvl)
      | "string" => .ok ("Vec<String>", lvl)
      | "boolean" => .ok ("Vec<bool>", lvl)
      | "date" => (extract_date_type v).map fun t => ("Vec<" ++ t ++ ">", lvl)
      | "number" => (extract_number_type v).map fun t => ("Vec<" ++ t ++ ">", lvl)
      | "integer" => (extract_integer_type v).map fun t => ("Vec<" ++ t ++ ">", lvl)
      | "array" => array_recurse_for_type s st k (lvl + 1)
      | x => .error (.unsupportedRecursiveArrayType x k) := by
  conv_lhs => rw [array_recurse_for_type]
  split
  · rename_i its heq
    rw [h] at heq
    injection heq with heq'
    subst heq'
    rfl
  · rename_i heq
    rw [h] at heq
    cases heq

theorem resolveOne_array_eq {k : String} {v : JSONSchemaProps} {st : String}
    (a : List (String × Nat)) (hty : v.type_.getD "" = "array") :
    resolveOne k v st a =
      match array_recurse_for_type v st k 1 with
      | .ok (ty, d) => .ok (ty, insertAR a k d)
      | .error e => .error e := by
  unfold resolveOne
  rw [hty]
  rfl

theorem resolveOne_ok_arl {k : String} {v : JSONSchemaProps} {st : String}
    {a a' : List (String × Nat)} {t : String}
    (h : resolveOne k v st a = .ok (t, a')) :
    (v.type_.getD "" = "array" ∧ ∃ d, a' = insertAR a k d) ∨
    (v.type_.getD "" ≠ "array" ∧ a' = a) := by
  unfold resolveOne at h
  split at h <;> rename_i hty
  case h_1 =>
    right
    refine ⟨by simp [hty], ?_⟩
    repeat' split at h
    all_goals simp at h
    all_goals exact h.2.symm
  case h_2 =>
    right
    refine ⟨by simp [hty], ?_⟩
    simp at h
    exact h.2.symm
  case h_3 =>
    right
    refine ⟨by simp [hty], ?_⟩
    simp at h
    exact h.2.symm
  case h_4 =>
    right
    refine ⟨by simp [hty], ?_⟩
    cases hx : extract_date_type v <;> rw [hx] at h <;> simp [Except.map] at h
    exact h.2.symm
  case h_5 =>
    right
    refine ⟨by simp [hty], ?_⟩
    cases hx : extract_number_type v <;> rw [hx] at h <;> simp [Except.map] at h
    exact h.2.symm
  case h_6 =>
    right
    refine ⟨by simp [hty], ?_⟩
    cases hx : extract_integer_type v <;> rw [hx] at h <;> simp [Except.map] at h
    exact h.2.symm
  case h_7 =>
    left
    refine ⟨hty, ?_⟩
    split at h
    · rename_i ty d heq
      simp at h
      exact ⟨d, h.2.symm⟩
    · simp at h
  case h_8 =>
    right
    refine ⟨by simp [hty], ?_⟩
    split at h <;> simp at h
    exact h.2.symm
  case h_9 =>
    simp at h

/-! ### Properties of the member-resolution loop -/

theorem resolveMembers_names :
    ∀ (pairs : List (String × JSONSchemaProps)) (st : String) (reqs : List String)
      (a : List (String × Nat)) (ms : List OutputMember) (a' : List (String × Nat)),
      resolveMembers pairs st reqs a = .ok (ms, a') →
      ms.map (fun m => m.name) = pairs.map Prod.fst := by
  intro pairs
  induction pairs with
  | nil =>
    intro st reqs a ms a' h
    simp only [resolveMembers, Except.ok.injEq, Prod.mk.injEq] at h
    rw [← h.1]
    simp
  | cons p rest ih =>
    obtain ⟨key, value⟩ := p
    intro st reqs a ms a' h
    unfold resolveMembers at h
    split at h
    · cases h
    · rename_i t a₁ heq1
      split at h
      · cases h
      · rename_i ms₀ a₂ heq2
        simp only [Except.ok.injEq, Prod.mk.injEq] at h
        rw [← h.1]
        by_cases hreq : reqs.contains key <;>
          simp only [hreq, if_true, if_false, List.map_cons] <;>
          exact congrArg (key :: ·) (ih st reqs a₁ ms₀ a₂ heq2)

theorem resolveMembers_shape :
    ∀ (pairs : List (String × JSONSchemaProps)) (st : String) (reqs : List String)
      (a : List (String × Nat)) (ms : List OutputMember) (a' : List (String × Nat)),
      resolveMembers pairs st reqs a = .ok (ms, a') →
      List.Forall₂ (fun (m : OutputMember) (p : String × JSONSchemaProps) =>
        m.name = p.1 ∧ m.docs = p.2.description ∧
        ∃ b b' t, resolveOne p.1 p.2 st b = .ok (t, b') ∧
          m.type_ = (if reqs.contains p.1 then t else "Option<" ++ t ++ ">") ∧
          m.field_annot = (if reqs.contains p.1 then none else some optionalAnnot))
        ms pairs := by
  intro pairs
  induction pairs with
  | nil =>
    intro st reqs a ms a' h
    simp only [resolveMembers, Except.ok.injEq, Prod.mk.injEq] at h
    rw [← h.1]
    exact List.Forall₂.nil
  | cons p rest ih =>
    obtain ⟨key, value⟩ := p
    intro st reqs a ms a' h
    unfold resolveMembers at h
    split at h
    · cases h
    · rename_i t a₁ heq1
      split at h
      · cases h
      · rename_i ms₀ a₂ heq2
        simp only [Except.ok.injEq, Prod.mk.injEq] at h
        rw [← h.1]
        refine List.Forall₂.cons ?_ (ih st reqs a₁ ms₀ a₂ heq2)
        exact ⟨by split <;> rfl, by split <;> rfl, a, a₁, t, heq1,
          by split <;> rfl, by split <;> rfl⟩

theorem resolveMembers_error_of_bad :
    ∀ (pairs : List (String × JSONSchemaProps)) (st : String) (reqs : List String)
      (a : List (String × Nat)) (k : String) (v : JSONSchemaProps),
      (k, v) ∈ pairs →
      (∀ b, ∃ e, resolveOne k v st b = .error e) →
      ∃ e, resolveMembers pairs st reqs a = .error e := by
  intro pairs
  induction pairs with
  | nil =>
    intro st reqs a k v hmem
    cases hmem
  | cons p rest ih =>
    obtain ⟨key, value⟩ := p
    intro st reqs a k v hmem hbad
    rcases List.mem_cons.mp hmem with heq | hmem'
    · injection heq with hk hv
      subst hk
      subst hv
      obtain ⟨e, he⟩ := hbad a
      exact ⟨e, by unfold resolveMembers; simp only [he]⟩
    · cases hr : resolveOne key value st a with
      | error e => exact ⟨e, by unfold resolveMembers; simp only [hr]⟩
      | ok p' =>
        obtain ⟨t, a₁⟩ := p'
        obtain ⟨e, he⟩ := ih st reqs a₁ k v hmem' hbad
        exact ⟨e, by unfold resolveMembers; simp only [hr, he]⟩

theorem insertAR_keys :
    ∀ (a : List (String × Nat)) (k : String) (d₀ : Nat) (k' : String),
      (∃ d, (k', d) ∈ insertAR a k d₀) ↔ (k' = k ∨ ∃ d, (k', d) ∈ a) := by
  intro a
  induction a with
  | nil =>
    intro k d₀ k'
    simp [insertAR]
  | cons q rest ih =>
    obtain ⟨k₁, d₁⟩ := q
    intro k d₀ k'
    simp only [insertAR]
    split
    · rename_i hk₁
      subst hk₁
      simp only [List.mem_cons, Prod.mk.injEq]
      constructor
      · rintro ⟨d, hd | hd⟩
        · exact Or.inl hd.1
        · exact Or.inr ⟨d, Or.inr hd⟩
      · rintro (rfl | ⟨d, hd | hd⟩)
        · exact ⟨d₀, Or.inl ⟨rfl, rfl⟩⟩
        · exact ⟨d₀, Or.inl ⟨hd.1, rfl⟩⟩
        · exact ⟨d, Or.inr hd⟩
    · rename_i hk₁
      simp only [List.mem_cons, Prod.mk.injEq]
      constructor
      · rintro ⟨d, hd | hd⟩
        · exact Or.inr ⟨d, Or.inl hd⟩
        · rcases (ih k d₀ k').mp ⟨d, hd⟩ with h' | ⟨d', hd'⟩
          · exact Or.inl h'
          · exact Or.inr ⟨d', Or.inr hd'⟩
      · rintro (rfl | ⟨d, hd | hd⟩)
        · obtain ⟨d, hd⟩ := (ih k' d₀ k').mpr (Or.inl rfl)
          exact ⟨d, Or.inr hd⟩
        · exact ⟨d, Or.inl hd⟩
        · obtain ⟨d', hd'⟩ := (ih k d₀ k').mpr (Or.inr ⟨d, hd⟩)
          exact ⟨d', Or.inr hd'⟩

theorem resolveMembers_arl_keys :
    ∀ (pairs : List (String × JSONSchemaProps)) (st : String) (reqs : List String)
      (a : List (String × Nat)) (ms : List OutputMember) (a' : List (String × Nat)),
      resolveMembers pairs st reqs a = .ok (ms, a') →
      ∀ k', (∃ d, (k', d) ∈ a') ↔
        ((∃ d, (k', d) ∈ a) ∨
         ∃ v, (k', v) ∈ pairs ∧ v.type_.getD "" = "array") := by
  intro pairs
  induction pairs with
  | nil =>
    intro st reqs a ms a' h k'
    simp only [resolveMembers, Except.ok.injEq, Prod.mk.injEq] at h
    rw [← h.2]
    simp
  | cons p rest ih =>
    obtain ⟨key, value⟩ := p
    intro st reqs a ms a' h k'
    unfold resolveMembers at h
    split at h
    · cases h
    · rename_i t a₁ heq1
      split at h
      · cases h
      · rename_i ms₀ a₂ heq2
        simp only [Except.ok.injEq, Prod.mk.injEq] at h
        rw [← h.2]
        have hrest := ih st reqs a₁ ms₀ a₂ heq2 k'
        rcases resolveOne_ok_arl heq1 with ⟨hty, d, ha₁⟩ | ⟨hty, ha₁⟩
        · subst ha₁
          rw [hrest]
          rw [insertAR_keys]
          constructor
          · rintro ((rfl | h') | ⟨v, hv, hvty⟩)
            · exact Or.inr ⟨value, List.mem_cons_self _ _, hty⟩
            · exact Or.inl h'
            · exact Or.inr ⟨v, List.mem_cons_of_mem _ hv, hvty⟩
          · rintro (h' | ⟨v, hv, hvty⟩)
            · exact Or.inl (Or.inr h')
            · rcases List.mem_cons.mp hv with heqv | hv'
              · injection heqv with hk _
                exact Or.inl (Or.inl hk)
              · exact Or.inr ⟨v, hv', hvty⟩
        · subst ha₁
          rw [hrest]
          constructor
          · rintro (h' | ⟨v, hv, hvty⟩)
            · exact Or.inl h'
            · exact Or.inr ⟨v, List.mem_cons_of_mem _ hv, hvty⟩
          · rintro (h' | ⟨v, hv, hvty⟩)
            · exact Or.inl h'
            · rcases List.mem_cons.mp hv with heqv | hv'
              · injection heqv with hk hv₂
                subst hk
                subst hv₂
                exact absurd hvty hty
              · exact Or.inr ⟨v, hv', hvty⟩

/-- Success of `analyze_object_properties` decomposed: one struct named by the
stack, with the members and final table of the member-resolution loop. -/
theorem aop_ok {props : List (String × JSONSchemaProps)} {stack : String}
    {a : List (String × Nat)} {lvl : Nat} {schema : JSONSchemaProps}
    {res : List OutputStruct} {a' : List (String × Nat)}
    (h : analyze_object_properties props stack a lvl schema = .ok (res, a')) :
    ∃ ms, resolveMembers (sortPairs props) stack (schema.required.getD []) a
        = .ok (ms, a') ∧
      res = [{ name := stack, members := ms, level := lvl,
               docs := schema.description }] := by
  unfold analyze_object_properties at h
  split at h
  · cases h
  · rename_i ms a₂ heq
    simp only [Except.ok.injEq, Prod.mk.injEq] at h
    exact ⟨ms, h.2 ▸ heq, h.1.symm⟩

/-! ### Concrete schemas used by witnesses and counterexamples -/

/-- `{type: string}` -/
def str_schema : JSONSchemaProps := .mk (some "string") none none none none none none none none

/-- A schema with every field absent. -/
def empty_schema : JSONSchemaProps := .mk none none none none none none none none none

/-- `{type: object, properties: {a: {type: string}}, required: [a]}` -/
def c1_inner : JSONSchemaProps :=
  .mk (some "object") none none (some [("a", str_schema)]) (some ["a"]) none none none none

/-- `{type: object, additionalProperties: c1_inner}` — a map-of-struct whose
value schema declares its own member `a` as required. -/
def c1_outer : JSONSchemaProps :=
  .mk (some "object") none none none none none (some (.Schema c1_inner)) none none

/-- `{type: object, properties: {a,b: string}, required: [a]}` -/
def c1w_schema : JSONSchemaProps :=
  .mk (some "object") none none (some [("a", str_schema), ("b", str_schema)])
    (some ["a"]) none none none none

/-- `{type: integer, format: int32}` -/
def c2_int_item : JSONSchemaProps :=
  .mk (some "integer") (some "int32") none none none none none none none

/-- `{type: array, items: {type: integer, format: int32}}` — the format tag
sits on the item schema, not on the array schema. -/
def c2_arr : JSONSchemaProps :=
  .mk (some "array") none none none none (some (.Schema c2_int_item)) none none none

/-- `{type: integer}` (no format) -/
def int_schema : JSONSchemaProps := .mk (some "integer") none none none none none none none none

/-- `{type: array, format: int32, items: {type: integer}}` — the format tag
on the array schema, which is where the code reads it. -/
def c2w_arr : JSONSchemaProps :=
  .mk (some "array") (some "int32") none none none (some (.Schema int_schema)) none none none

/-- `{type: object, additionalProperties: {type: integer}}` — scenario 4's `to`. -/
def dr_to : JSONSchemaProps :=
  .mk (some "object") none none none none none (some (.Schema int_schema)) none none

/-- `{type: object, properties: {from: string, to: dr_to}}` -/
def dr_inner : JSONSchemaProps :=
  .mk (some "object") none none (some [("from", str_schema), ("to", dr_to)]) none none none none none

/-- `{type: array, items: dr_inner}` — scenario 4's `distribute`. -/
def dr_dist : JSONSchemaProps :=
  .mk (some "array") none none none none (some (.Schema dr_inner)) none none none

/-- `{type: object, properties: {distribute: dr_dist}}` — scenario 4's root. -/
def dr_root : JSONSchemaProps :=
  .mk (some "object") none none (some [("distribute", dr_dist)]) none none none none none

/-- `{type: array, items: {type: string}}` — array with scalar element type. -/
def c4_arr_str : JSONSchemaProps :=
  .mk (some "array") none none none none (some (.Schema str_schema)) none none none

/-- `{type: array}` with no `items`. -/
def c7_bad_arr : JSONSchemaProps :=
  .mk (some "array") none none none none none none none none

/-- `{type: object, properties: {a: {type: array (no items)}}}` -/
def c7_root : JSONSchemaProps :=
  .mk (some "object") none none (some [("a", c7_bad_arr)]) none none none none none

/-- `{type: object}` with no properties, no additionalProperties, no markers. -/
def c10_obj : JSONSchemaProps :=
  .mk (some "object") none none none none none none none none

/-! ### The claims -/

/-- C5: whenever a Member Resolver invocation (`analyze_object_properties`)
succeeds, it returns exactly one Output Struct — never zero, never more than
one. -/
theorem c5_struct_count (props : List (String × JSONSchemaProps)) (stack : String)
    (arl : List (String × Nat)) (level : Nat) (schema : JSONSchemaProps)
    (res : List OutputStruct) (arl' : List (String × Nat))
    (h : analyze_object_properties props stack arl level schema = .ok (res, arl')) :
    res.length = 1 := by
  obtain ⟨ms, _, hres⟩ := aop_ok h
  rw [hres]
  rfl

/-- Witness for C5 at a concrete one-property object. -/
theorem c5_struct_count_witness :
    analyze_object_properties [("a", str_schema)] "X" [] 0 empty_schema =
      .ok ([{ name := "X",
              members := [{ type_ := "Option<String>", name := "a",
                            field_annot := some optionalAnnot, docs := none }],
              level := 0, docs := none }], []) ∧
    ([{ name := "X",
        members := [{ type_ := "Option<String>", name := "a",
                      field_annot := some optionalAnnot, docs := none }],
        level := 0, docs := none }] : List OutputStruct).length = 1 :=
  ⟨rfl, c5_struct_count [("a", str_schema)] "X" [] 0 empty_schema _ _ rfl⟩

/-- C8: the members of every struct produced by a Member Resolver call are in
ascending lexicographic (byte) order of their property names, whatever the
order of the input association list. -/
theorem c8_member_order (props : List (String × JSONSchemaProps)) (stack : String)
    (arl : List (String × Nat)) (level : Nat) (schema : JSONSchemaProps)
    (res : List OutputStruct) (arl' : List (String × Nat))
    (h : analyze_object_properties props stack arl level schema = .ok (res, arl')) :
    ∀ st ∈ res, List.Pairwise (fun m n : OutputMember => keyLe m.name n.name)
      st.members := by
  obtain ⟨ms, hrm, hres⟩ := aop_ok h
  intro st hst
  rw [hres] at hst
  rcases List.mem_singleton.mp hst with rfl
  have hnames : ms.map (fun m => m.name) = (sortPairs props).map Prod.fst :=
    resolveMembers_names _ _ _ _ _ _ hrm
  have hsorted : List.Pairwise keyOrdered (sortPairs props) := pairwise_sortPairs props
  have h1 : List.Pairwise (fun a b : String => keyLe a b)
      ((sortPairs props).map Prod.fst) :=
    List.pairwise_map.mpr hsorted
  rw [← hnames] at h1
  exact List.pairwise_map.mp h1

/-- Witness for C8: out-of-order input keys come out sorted. -/
theorem c8_member_order_witness :
    analyze_object_properties [("b", str_schema), ("a", str_schema)] "X" [] 0
        empty_schema =
      .ok ([{ name := "X",
              members := [{ type_ := "Option<String>", name := "a",
                            field_annot := some optionalAnnot, docs := none },
                          { type_ := "Option<String>", name := "b",
                            field_annot := some optionalAnnot, docs := none }],
              level := 0, docs := none }], []) ∧
    List.Pairwise (fun m n : OutputMember => keyLe m.name n.name)
      [({ type_ := "Option<String>", name := "a",
          field_annot := some optionalAnnot, docs := none } : OutputMember),
       { type_ := "Option<String>", name := "b",
         field_annot := some optionalAnnot, docs := none }] :=
  ⟨rfl, c8_member_order [("b", str_schema), ("a", str_schema)] "X" [] 0
    empty_schema _ _ rfl _ (List.mem_singleton.mpr rfl)⟩

/-- C9: envelope keys (`metadata`, `apiVersion`, `kind`) still become typed
members of the produced struct (member names are exactly the sorted property
keys, with no key excluded); at level 0 the recursion loop skips them, and at
any other level it walks them like any other property. -/
theorem c9_envelope_keys :
    (∀ (props : List (String × JSONSchemaProps)) (stack : String)
       (a : List (String × Nat)) (lvl : Nat) (schema : JSONSchemaProps)
       (res : List OutputStruct) (a' : List (String × Nat)),
       analyze_object_properties props stack a lvl schema = .ok (res, a') →
       ∀ st ∈ res, st.members.map (fun m => m.name) = (sortPairs props).map Prod.fst) ∧
    (∀ (k : String) (v : JSONSchemaProps) (rest : List (String × JSONSchemaProps))
       (arl : List (String × Nat)) (stack : String) (res : List OutputStruct),
       IGNORED_KEYS.contains k = true →
       analyzeRecurse ((k, v) :: rest) arl stack 0 res =
         analyzeRecurse rest arl stack 0 res) ∧
    (∀ (k : String) (v : JSONSchemaProps) (rest : List (String × JSONSchemaProps))
       (arl : List (String × Nat)) (stack : String) (lvl : Nat)
       (res : List OutputStruct),
       lvl ≠ 0 →
       analyzeRecurse ((k, v) :: rest) arl stack lvl res =
         match walk_property k v arl stack lvl res with
         | (res', none) => analyzeRecurse rest arl stack lvl res'
         | (res', some e) => (res', some e)) := by
  refine ⟨?_, ?_, ?_⟩
  · intro props stack a lvl schema res a' h st hst
    obtain ⟨ms, hrm, hres⟩ := aop_ok h
    rw [hres] at hst
    rcases List.mem_singleton.mp hst with rfl
    exact resolveMembers_names _ _ _ _ _ _ hrm
  · intro k v rest arl stack res hk
    have hk' : k ∈ IGNORED_KEYS := by simpa using hk
    rw [analyzeRecurse]
    simp [hk']
  · intro k v rest arl stack lvl res hlvl
    rw [analyzeRecurse]
    simp [hlvl]

/-- Witness for C9 at the key `metadata`. -/
theorem c9_envelope_keys_witness :
    analyze_object_properties [("metadata", str_schema)] "X" [] 0 empty_schema =
      .ok ([{ name := "X",
              members := [{ type_ := "Option<String>", name := "metadata",
                            field_annot := some optionalAnnot, docs := none }],
              level := 0, docs := none }], []) ∧
    ([({ type_ := "Option<String>", name := "metadata",
         field_annot := some optionalAnnot, docs := none } : OutputMember)].map
        (fun m => m.name) = (sortPairs [("metadata", str_schema)]).map Prod.fst) ∧
    IGNORED_KEYS.contains "metadata" = true ∧
    analyzeRecurse [("metadata", str_schema)] [] "X" 0 [] =
      analyzeRecurse [] [] "X" 0 [] ∧
    (1 : Nat) ≠ 0 ∧
    analyzeRecurse [("metadata", str_schema)] [] "X" 1 [] =
      match walk_property "metadata" str_schema [] "X" 1 [] with
      | (res', none) => analyzeRecurse [] [] "X" 1 res'
      | (res', some e) => (res', some e) := by
  refine ⟨rfl, ?_, rfl, ?_, by decide, ?_⟩
  · exact c9_envelope_keys.1 [("metadata", str_schema)] "X" [] 0 empty_schema _ _
      rfl _ (List.mem_singleton.mpr rfl)
  · exact c9_envelope_keys.2.1 "metadata" str_schema [] [] "X" [] rfl
  · exact c9_envelope_keys.2.2 "metadata" str_schema [] [] "X" 1 [] (by decide)

/-- C1 (amended): a member's type is wrapped in `Option<...>` iff its key is
absent from the required-name set of the *schema argument handed to the
resolver call* — which, in the map-of-struct case, is the outer object's
schema, not the inner `additionalProperties` node whose properties were
resolved. -/
theorem c1_optionality (props : List (String × JSONSchemaProps)) (stack : String)
    (a : List (String × Nat)) (lvl : Nat) (schema : JSONSchemaProps)
    (res : List OutputStruct) (a' : List (String × Nat))
    (h : analyze_object_properties props stack a lvl schema = .ok (res, a')) :
    ∀ st ∈ res,
      List.Forall₂ (fun (m : OutputMember) (p : String × JSONSchemaProps) =>
        m.name = p.1 ∧
        ∃ b b' t, resolveOne p.1 p.2 stack b = .ok (t, b') ∧
          (((schema.required.getD []).contains p.1 = true ∧
              m.type_ = t ∧ m.field_annot = none) ∨
           ((schema.required.getD []).contains p.1 = false ∧
              m.type_ = "Option<" ++ t ++ ">" ∧
              m.field_annot = some optionalAnnot)))
        st.members (sortPairs props) := by
  obtain ⟨ms, hrm, hres⟩ := aop_ok h
  intro st hst
  rw [hres] at hst
  rcases List.mem_singleton.mp hst with rfl
  have hshape := resolveMembers_shape _ _ _ _ _ _ hrm
  refine List.Forall₂.imp ?_ hshape
  rintro m p ⟨hname, _, b, b', t, hro, hty, hann⟩
  refine ⟨hname, b, b', t, hro, ?_⟩
  by_cases hc : (schema.required.getD []).contains p.1 = true
  · left
    refine ⟨hc, ?_, ?_⟩
    · rw [hty, if_pos hc]
    · rw [hann, if_pos hc]
  · right
    refine ⟨by simpa using hc, ?_, ?_⟩
    · rw [hty, if_neg hc]
    · rw [hann, if_neg hc]

/-- Witness for C1 at an object with `required: [a]` and properties `a`, `b`:
`a` stays bare, `b` is wrapped. -/
theorem c1_optionality_witness :
    analyze_object_properties [("a", str_schema), ("b", str_schema)] "X" [] 0
        c1w_schema =
      .ok ([{ name := "X",
              members := [{ type_ := "String", name := "a",
                            field_annot := none, docs := none },
                          { type_ := "Option<String>", name := "b",
                            field_annot := some optionalAnnot, docs := none }],
              level := 0, docs := none }], []) ∧
    List.Forall₂ (fun (m : OutputMember) (p : String × JSONSchemaProps) =>
        m.name = p.1 ∧
        ∃ b b' t, resolveOne p.1 p.2 "X" b = .ok (t, b') ∧
          (((c1w_schema.required.getD []).contains p.1 = true ∧
              m.type_ = t ∧ m.field_annot = none) ∨
           ((c1w_schema.required.getD []).contains p.1 = false ∧
              m.type_ = "Option<" ++ t ++ ">" ∧
              m.field_annot = some optionalAnnot)))
      [({ type_ := "String", name := "a", field_annot := none,
          docs := none } : OutputMember),
       { type_ := "Option<String>", name := "b",
         field_annot := some optionalAnnot, docs := none }]
      (sortPairs [("a", str_schema), ("b", str_schema)]) :=
  ⟨rfl, c1_optionality [("a", str_schema), ("b", str_schema)] "X" [] 0
    c1w_schema _ _ rfl _ (List.mem_singleton.mpr rfl)⟩

/-- Counterexample refuting C1 as stated: in the map-of-struct call the
resolver receives the *outer* schema, whose required set is empty, so the
member `a` of the value struct comes out `Option<String>` even though `a` is
in the required set of the inner node whose properties were resolved. -/
theorem c1_counterexample :
    analyze c1_outer "x" "X" 0 [] =
      ([{ name := "X",
          members := [{ type_ := "Option<String>", name := "a",
                        field_annot := some optionalAnnot, docs := none }],
          level := 0, docs := none }], none) ∧
    c1_inner.required = some ["a"] ∧
    c1_outer.additional_properties = some (.Schema c1_inner) ∧
    c1_inner.properties = some [("a", str_schema)] := by
  refine ⟨?_, rfl, rfl, rfl⟩
  simp [analyze, analyzeRecurse, analyze_object_properties, resolveMembers,
    resolveOne, sortPairs, insertPair, c1_outer, c1_inner, str_schema,
    JSONSchemaProps.type_, JSONSchemaProps.properties, JSONSchemaProps.required,
    JSONSchemaProps.description, JSONSchemaProps.additional_properties,
    JSONSchemaProps.x_kubernetes_int_or_string,
    JSONSchemaProps.x_kubernetes_preserve_unknown_fields]

/-- C4 (amended): after a Member Resolver call started with an empty table,
the Array Unwrap Table holds an entry for *exactly* the array-typed property
keys — whether the innermost element type is an object or a scalar; and the
walker's replay into a schema that is neither object-typed nor carries
properties appends no struct. -/
theorem c4_unwrap_table :
    (∀ (props : List (String × JSONSchemaProps)) (stack : String) (lvl : Nat)
       (schema : JSONSchemaProps) (res : List OutputStruct)
       (arl' : List (String × Nat)),
       analyze_object_properties props stack [] lvl schema = .ok (res, arl') →
       ∀ k, (∃ d, (k, d) ∈ arl') ↔
         (∃ v, (k, v) ∈ props ∧ v.type_.getD "" = "array")) ∧
    (∀ (s : JSONSchemaProps) (c st : String) (lvl : Nat) (res : List OutputStruct),
       s.type_.getD "" ≠ "object" → s.properties.getD [] = [] →
       analyze s c st lvl res = (res, none)) := by
  constructor
  · intro props stack lvl schema res arl' h k
    obtain ⟨ms, hrm, _⟩ := aop_ok h
    rw [resolveMembers_arl_keys _ _ _ _ _ _ hrm k]
    simp only [List.not_mem_nil, exists_const, false_or]
    constructor
    · rintro ⟨v, hv, hvty⟩
      exact ⟨v, (mem_sortPairs _ _).mp hv, hvty⟩
    · rintro ⟨v, hv, hvty⟩
      exact ⟨v, (mem_sortPairs _ _).mpr hv, hvty⟩
  · intro s c st lvl res hty hprops
    rw [analyze]
    simp [hty, hprops, sortPairs, analyzeRecurse]

/-- Witness for C4: a scalar-element array still gets a table entry, and the
walker's visit to a scalar schema appends nothing. -/
theorem c4_unwrap_table_witness :
    (analyze_object_properties [("a", c4_arr_str)] "X" [] 0 empty_schema =
      .ok ([{ name := "X",
              members := [{ type_ := "Option<Vec<String>>", name := "a",
                            field_annot := some optionalAnnot, docs := none }],
              level := 0, docs := none }], [("a", 1)])) ∧
    ((∃ d, ("a", d) ∈ [("a", 1)]) ↔
      (∃ v, ("a", v) ∈ [("a", c4_arr_str)] ∧ v.type_.getD "" = "array")) ∧
    analyze str_schema "A" "XA" 1 [] = ([], none) := by
  have h : analyze_object_properties [("a", c4_arr_str)] "X" [] 0 empty_schema =
      .ok ([{ name := "X",
              members := [{ type_ := "Option<Vec<String>>", name := "a",
                            field_annot := some optionalAnnot, docs := none }],
              level := 0, docs := none }], [("a", 1)]) := by
    simp [analyze_object_properties, resolveMembers, resolveOne, sortPairs,
      array_recurse_for_type, insertAR, c4_arr_str, str_schema, empty_schema,
      JSONSchemaProps.type_, JSONSchemaProps.properties, JSONSchemaProps.required,
      JSONSchemaProps.description, JSONSchemaProps.items,
      JSONSchemaProps.additional_properties,
      JSONSchemaProps.x_kubernetes_int_or_string,
      JSONSchemaProps.x_kubernetes_preserve_unknown_fields]
  refine ⟨h, c4_unwrap_table.1 [("a", c4_arr_str)] "X" 0 empty_schema _ _ h "a",
    c4_unwrap_table.2 str_schema "A" "XA" 1 [] (by decide) rfl⟩

/-- Counterexample refuting C4 as stated: for an array property whose element
type is the scalar `string`, the table *does* contain an entry for the key. -/
theorem c4_counterexample :
    analyze_object_properties [("a", c4_arr_str)] "X" [] 7 empty_schema =
      .ok ([{ name := "X",
              members := [{ type_ := "Option<Vec<String>>", name := "a",
                            field_annot := some optionalAnnot, docs := none }],
              level := 7, docs := none }], [("a", 1)]) ∧
    c4_arr_str.items = some (.Schema str_schema) ∧
    str_schema.type_ = some "string" := by
  refine ⟨?_, rfl, rfl⟩
  simp [analyze_object_properties, resolveMembers, resolveOne, sortPairs,
    array_recurse_for_type, insertAR, c4_arr_str, str_schema, empty_schema,
    JSONSchemaProps.type_, JSONSchemaProps.properties, JSONSchemaProps.required,
    JSONSchemaProps.description, JSONSchemaProps.items,
    JSONSchemaProps.additional_properties,
    JSONSchemaProps.x_kubernetes_int_or_string,
    JSONSchemaProps.x_kubernetes_preserve_unknown_fields]

/-- C6: a map-of-struct emits its value struct under the *current* name stack
(the struct appended is named exactly `stack`), and the member the parent
resolver produces for such a map field is `BTreeMap<String, stack ++
capitalized key>` — the same name the walker hands down as the child stack. -/
theorem c6_map_struct_naming :
    (∀ (schema s : JSONSchemaProps) (ep : List (String × JSONSchemaProps))
       (cur stack : String) (lvl : Nat) (res strs : List OutputStruct)
       (arl : List (String × Nat)),
       schema.type_.getD "" = "object" →
       schema.additional_properties = some (.Schema s) →
       s.properties = some ep →
       schema.properties = none →
       analyze_object_properties ep stack [] lvl schema = .ok (strs, arl) →
       analyze schema cur stack lvl res = (res ++ strs, none) ∧
       ∀ st ∈ strs, st.name = stack) ∧
    (∀ (pk pstack : String) (pv s' : JSONSchemaProps) (b : List (String × Nat)),
       pv.type_.getD "" = "object" →
       pv.additional_properties = some (.Schema s') →
       s'.type_.getD "" = "object" →
       resolveOne pk pv pstack b =
         .ok ("BTreeMap<String, " ++ (pstack ++ uppercase_first_letter pk) ++ ">", b)) := by
  constructor
  · intro schema s ep cur stack lvl res strs arl hty haddl hsp hprops haop
    obtain ⟨ms, hrm, hres⟩ := aop_ok haop
    constructor
    · rw [analyze]
      simp [hty, haddl, hsp, haop, hprops, sortPairs, analyzeRecurse]
    · intro st hst
      rw [hres] at hst
      rcases List.mem_singleton.mp hst with rfl
      rfl
  · intro pk pstack pv s' b hty haddl hsty
    unfold resolveOne
    rw [hty]
    simp [haddl, hsty]

/-- Witness for C6 at the concrete map-of-struct `c1_outer`. -/
theorem c6_map_struct_naming_witness :
    (analyze c1_outer "x" "X" 0 [] =
      ([] ++ [{ name := "X",
                members := [{ type_ := "Option<String>", name := "a",
                              field_annot := some optionalAnnot, docs := none }],
                level := 0, docs := none }], none) ∧
     ∀ st ∈ [({ name := "X",
                members := [{ type_ := "Option<String>", name := "a",
                              field_annot := some optionalAnnot, docs := none }],
                level := 0, docs := none } : OutputStruct)], st.name = "X") ∧
    resolveOne "k" (.mk (some "object") none none none none none
        (some (.Schema c10_obj)) none none) "St" [] =
      .ok ("BTreeMap<String, " ++ ("St" ++ uppercase_first_letter "k") ++ ">", []) :=
  ⟨c6_map_struct_naming.1 c1_outer c1_inner [("a", str_schema)] "x" "X" 0 [] _ []
      rfl rfl rfl rfl rfl,
   c6_map_struct_naming.2 "k" "St"
      (.mk (some "object") none none none none none (some (.Schema c10_obj)) none none)
      c10_obj [] rfl rfl rfl⟩

/-- C7: tuple-style `items` fails with the single-schema error, absent `items`
fails with the missing-items error, and an object whose properties contain
such an array aborts `analyze` with an error, leaving the caller's result
sequence exactly as it was (no struct for the containing object). -/
theorem c7_array_items_errors :
    (∀ (v : JSONSchemaProps) (st k : String) (lvl : Nat)
       (ss : List JSONSchemaProps),
       v.items = some (.Schemas ss) →
       array_recurse_for_type v st k lvl = .error (.onlySupportSingleSchemaInArray k)) ∧
    (∀ (v : JSONSchemaProps) (st k : String) (lvl : Nat),
       v.items = none →
       array_recurse_for_type v st k lvl = .error .missingItemsInArrayType) ∧
    (∀ (schema : JSONSchemaProps) (cur stack : String) (lvl : Nat)
       (res : List OutputStruct) (props : List (String × JSONSchemaProps))
       (k : String) (v : JSONSchemaProps),
       schema.type_.getD "" = "object" →
       schema.additional_properties = none →
       schema.properties = some props →
       (k, v) ∈ props →
       v.type_.getD "" = "array" →
       (v.items = none ∨ ∃ ss, v.items = some (.Schemas ss)) →
       ∃ e, analyze schema cur stack lvl res = (res, some e)) := by
  refine ⟨fun v st k lvl ss h => arfc_items_schemas h,
          fun v st k lvl h => arfc_items_none h, ?_⟩
  intro schema cur stack lvl res props k v hty haddl hprops hmem hvty hbad
  have hbadro : ∀ b, ∃ e, resolveOne k v stack b = .error e := by
    intro b
    rcases hbad with hnone | ⟨ss, hss⟩
    · exact ⟨.missingItemsInArrayType,
        by rw [resolveOne_array_eq b hvty, arfc_items_none hnone]⟩
    · exact ⟨.onlySupportSingleSchemaInArray k,
        by rw [resolveOne_array_eq b hvty, arfc_items_schemas hss]⟩
  obtain ⟨e, he⟩ := resolveMembers_error_of_bad (sortPairs props) stack
    (schema.required.getD []) [] k v ((mem_sortPairs _ _).mpr hmem) hbadro
  have haop : analyze_object_properties props stack [] lvl schema = .error e := by
    unfold analyze_object_properties
    simp only [he]
  have hne : props.isEmpty = false := by
    cases props with
    | nil => cases hmem
    | cons q t => rfl
  refine ⟨e, ?_⟩
  rw [analyze]
  simp [hty, haddl, hprops, hne, haop]

/-- Witness for C7 at an object with one array property lacking `items`. -/
theorem c7_array_items_errors_witness :
    array_recurse_for_type c7_bad_arr "X" "a" 1 = .error .missingItemsInArrayType ∧
    array_recurse_for_type
        (.mk (some "array") none none none none (some (.Schemas [str_schema]))
          none none none) "X" "a" 1 =
      .error (.onlySupportSingleSchemaInArray "a") ∧
    (∃ e, analyze c7_root "x" "X" 0 [] = ([], some e)) :=
  ⟨c7_array_items_errors.2.1 c7_bad_arr "X" "a" 1 rfl,
   c7_array_items_errors.1
     (.mk (some "array") none none none none (some (.Schemas [str_schema]))
       none none none) "X" "a" 1 [str_schema] rfl,
   c7_array_items_errors.2.2 c7_root "x" "X" 0 [] [("a", c7_bad_arr)] "a"
     c7_bad_arr rfl rfl rfl (List.mem_singleton.mpr rfl) rfl (Or.inl rfl)⟩

/-- C10: an object with empty or absent properties, no `additionalProperties`
schema and no preserve-unknown-fields marker still yields exactly one struct,
named by the current stack, with an empty member list. -/
theorem c10_empty_object (schema : JSONSchemaProps) (cur stack : String)
    (lvl : Nat) (res : List OutputStruct)
    (hty : schema.type_.getD "" = "object")
    (haddl : ∀ s, schema.additional_properties ≠ some (.Schema s))
    (hprops : schema.properties.getD [] = [])
    (hpuf : schema.x_kubernetes_preserve_unknown_fields.getD false = false) :
    analyze schema cur stack lvl res =
      (res ++ [{ name := stack, members := [], level := lvl,
                 docs := schema.description }], none) := by
  rw [analyze]
  cases ha : schema.additional_properties with
  | none =>
    simp [hty, hprops, hpuf, ha, analyze_object_properties, resolveMembers,
      sortPairs, analyzeRecurse]
  | some ob =>
    cases ob with
    | Schema s => exact absurd ha (haddl s)
    | Bool b =>
      simp [hty, hprops, hpuf, ha, analyze_object_properties, resolveMembers,
        sortPairs, analyzeRecurse]

/-- Witness for C10 at `{type: object}` with everything absent. -/
theorem c10_empty_object_witness :
    analyze c10_obj "x" "X" 2 [] =
      ([] ++ [{ name := "X", members := [], level := 2, docs := none }], none) :=
  c10_empty_object c10_obj "x" "X" 2 [] rfl (fun s h => Option.noConfusion h)
    rfl rfl

/-- C2 (amended): for an array whose item schema declares `date`, `number` or
`integer`, the element's scalar representation is computed by the §4.2 format
rules applied to the *array schema's own* format tag (`extract_*_type` is
called on `value`, the current array layer), not the item schema's. -/
theorem c2_array_scalar_format (v s : JSONSchemaProps) (st k : String)
    (lvl : Nat) (h : v.items = some (.Schema s)) :
    (s.type_.getD "" = "date" →
       array_recurse_for_type v st k lvl =
         (extract_date_type v).map fun t => ("Vec<" ++ t ++ ">", lvl)) ∧
    (s.type_.getD "" = "number" →
       array_recurse_for_type v st k lvl =
         (extract_number_type v).map fun t => ("Vec<" ++ t ++ ">", lvl)) ∧
    (s.type_.getD "" = "integer" →
       array_recurse_for_type v st k lvl =
         (extract_integer_type v).map fun t => ("Vec<" ++ t ++ ">", lvl)) := by
  rw [arfc_item_schema h]
  refine ⟨?_, ?_, ?_⟩ <;> intro hty <;> rw [hty] <;> rfl

/-- Witness for C2 with the format tag on the array schema itself. -/
theorem c2_array_scalar_format_witness :
    c2w_arr.items = some (.Schema int_schema) ∧
    array_recurse_for_type c2w_arr "X" "k" 1 =
      (extract_integer_type c2w_arr).map fun t => ("Vec<" ++ t ++ ">", 1) :=
  ⟨rfl, (c2_array_scalar_format c2w_arr int_schema "X" "k" 1 rfl).2.2 rfl⟩

/-- Counterexample refuting C2 as stated: `items: {type: integer, format:
int32}` with no format on the array node yields `Vec<i64>` (the no-format
default), not `Vec<i32>` — the item schema's format tag is ignored. -/
theorem c2_counterexample :
    array_recurse_for_type c2_arr "X" "k" 1 = .ok ("Vec<i64>", 1) ∧
    c2_arr.items = some (.Schema c2_int_item) ∧
    c2_int_item.type_ = some "integer" ∧
    c2_int_item.format = some "int32" ∧
    c2_arr.format = none ∧
    ("Vec<i64>" : String) ≠ "Vec<i32>" := by
  refine ⟨?_, rfl, rfl, rfl, rfl, by decide⟩
  rw [arfc_item_schema (show c2_arr.items = some (.Schema c2_int_item) from rfl)]
  rfl

/-- C3: evaluating the analyzer on scenario 4's schema (array `distribute` of
objects whose `to` is a map with `additionalProperties: {type: integer}`, no
format).  The code produces the member type
`Option<BTreeMap<String, Integer>>` — the `integer` keyword is capitalized by
the best-guess arm — whereas the repository's own test
`integer_handling_in_maps` (and the spec's scenario 4) require
`Option<BTreeMap<String, i64>>`. -/
theorem c3_integer_map_eval :
    analyze dr_root "LocalityLbSetting" "DestinationRule" 1 [] =
      ([{ name := "DestinationRule",
          members := [{ type_ := "Option<Vec<DestinationRuleDistribute>>",
                        name := "distribute",
                        field_annot := some optionalAnnot, docs := none }],
          level := 1, docs := none },
        { name := "DestinationRuleDistribute",
          members := [{ type_ := "Option<String>", name := "from",
                        field_annot := some optionalAnnot, docs := none },
                      { type_ := "Option<BTreeMap<String, Integer>>",
                        name := "to",
                        field_annot := some optionalAnnot, docs := none }],
          level := 2, docs := none }], none) := by
  have hu1 : uppercase_first_letter "distribute" = "Distribute" := by decide
  have happ : ("DestinationRule" ++ "Distribute" : String) = "DestinationRuleDistribute" := by
    decide
  have pr1 : dr_root.type_.getD "" = "object" := rfl
  have pr2 : dr_root.additional_properties = none := rfl
  have pr3 : dr_root.properties.getD [] = [("distribute", dr_dist)] := rfl
  have pd1 : dr_dist.type_.getD "" = "array" := rfl
  have pd2 : dr_dist.items = some (.Schema dr_inner) := rfl
  have pi1 : dr_inner.type_.getD "" = "object" := rfl
  have pi2 : dr_inner.additional_properties = none := rfl
  have pi3 : dr_inner.properties.getD [] = [("from", str_schema), ("to", dr_to)] := rfl
  have ps1 : str_schema.type_.getD "" = "string" := rfl
  have pt1 : dr_to.type_.getD "" = "object" := rfl
  have pt2 : dr_to.additional_properties = some (.Schema int_schema) := rfl
  have pn1 : int_schema.type_.getD "" = "integer" := rfl
  have pn2 : int_schema.properties = none := rfl
  have hdto : ∀ (ck cs : String) (lvl : Nat) (res : List OutputStruct),
      analyze dr_to ck cs lvl res = (res, none) := by
    intro ck cs lvl res
    rw [analyze]
    simp [pt1, pt2, pn1, pn2]
  have hreplay : replayHops dr_dist 1 = .ok dr_inner := by
    simp [replayHops, pd2]
  have h0 : array_recurse_for_type dr_dist "DestinationRule" "distribute" 1 =
      .ok ("Vec<DestinationRuleDistribute>", 1) := by
    rw [arfc_item_schema pd2]
    rfl
  have hro : resolveOne "distribute" dr_dist "DestinationRule" [] =
      .ok ("Vec<DestinationRuleDistribute>", [("distribute", 1)]) := by
    rw [resolveOne_array_eq [] pd1, h0]
    rfl
  have hsort1 : sortPairs [("distribute", dr_dist)] = [("distribute", dr_dist)] := rfl
  have hsort2 : sortPairs [("from", str_schema), ("to", dr_to)] =
      [("from", str_schema), ("to", dr_to)] := rfl
  have h1 : analyze_object_properties [("distribute", dr_dist)] "DestinationRule"
      [] 1 dr_root =
      .ok ([{ name := "DestinationRule",
              members := [{ type_ := "Option<Vec<DestinationRuleDistribute>>",
                            name := "distribute",
                            field_annot := some optionalAnnot, docs := none }],
              level := 1, docs := none }], [("distribute", 1)]) := by
    unfold analyze_object_properties
    rw [hsort1]
    unfold resolveMembers
    rw [hro]
    rfl
  have h2a : analyze_object_properties [("from", str_schema), ("to", dr_to)]
      "DestinationRuleDistribute" [] 2 dr_inner =
      .ok ([{ name := "DestinationRuleDistribute",
              members := [{ type_ := "Option<String>", name := "from",
                            field_annot := some optionalAnnot, docs := none },
                          { type_ := "Option<BTreeMap<String, Integer>>",
                            name := "to",
                            field_annot := some optionalAnnot, docs := none }],
              level := 2, docs := none }], []) := rfl
  have hwfrom : ∀ (arl : List (String × Nat)) (stack : String)
      (res : List OutputStruct),
      walk_property "from" str_schema arl stack 2 res = (res, none) := by
    intro arl stack res
    rw [walk_property]
    simp [ps1]
  have hwto : ∀ (arl : List (String × Nat)) (stack : String)
      (res : List OutputStruct),
      walk_property "to" dr_to arl stack 2 res = (res, none) := by
    intro arl stack res
    rw [walk_property]
    simp only [pt1]
    split
    · rename_i s heq
      rw [pt2] at heq
      injection heq with heq'
      injection heq' with heq''
      subst heq''
      simp [pn1, hdto]
    · exact hdto _ _ _ res
  have h2 : ∀ res : List OutputStruct,
      analyze dr_inner "Distribute" "DestinationRuleDistribute" 2 res =
      (res ++ [{ name := "DestinationRuleDistribute",
                 members := [{ type_ := "Option<String>", name := "from",
                               field_annot := some optionalAnnot, docs := none },
                             { type_ := "Option<BTreeMap<String, Integer>>",
                               name := "to",
                               field_annot := some optionalAnnot, docs := none }],
                 level := 2, docs := none }], none) := by
    intro res
    rw [analyze]
    simp [pi1, pi2, pi3, hsort2, h2a, analyzeRecurse, hwfrom, hwto]
  have hwdist : ∀ res : List OutputStruct,
      walk_property "distribute" dr_dist [("distribute", 1)] "DestinationRule" 1
        res =
      (res ++ [{ name := "DestinationRuleDistribute",
                 members := [{ type_ := "Option<String>", name := "from",
                               field_annot := some optionalAnnot, docs := none },
                             { type_ := "Option<BTreeMap<String, Integer>>",
                               name := "to",
                               field_annot := some optionalAnnot, docs := none }],
                 level := 2, docs := none }], none) := by
    intro res
    rw [walk_property]
    simp only [pd1]
    have hlook : List.lookup "distribute" [("distribute", 1)] = some 1 := rfl
    simp only [hlook]
    split
    · rename_i inner heq
      rw [hreplay] at heq
      injection heq with heq'
      subst heq'
      rw [hu1, happ, h2]
    · rename_i e heq
      rw [hreplay] at heq
      cases heq
  rw [analyze]
  simp [pr1, pr2, pr3, hsort1, h1, analyzeRecurse, hwdist]

end KopiumAnalyzer
